import Mathlib

/-!
Verification development for the RhizoCam backend (src/backend/main.py).

The Python code is shallowly embedded: pure helpers become Lean functions on
`List Char` / `String`; each outbound HTTP call is an explicit input (the
response, or the transport failure) handed to the embedded function; Python
exceptions that the code can raise or catch are modelled with `Except PyExn`.
String operations follow Python semantics (`strip`, `split`, `splitlines`,
slices, `range`), restricted to ASCII whitespace.
-/

/-- Python exceptions that matter to this code base. -/
inductive PyExn where
  | indexError
  | attributeError
  | valueError
deriving DecidableEq, Repr

deriving instance DecidableEq for Except

/-! ## Python string primitives -/

/-- ASCII whitespace, as matched by Python `str.strip()` / `\s` (ASCII part). -/
def isPySpace (c : Char) : Bool :=
  c == ' ' || c == '\t' || c == '\n' || c == '\r' || c == '\x0b' || c == '\x0c'

/-- `str.strip()` on a character list: drop whitespace from both ends. -/
def pyStripL (l : List Char) : List Char :=
  ((l.dropWhile isPySpace).reverse.dropWhile isPySpace).reverse

/-- `str.strip()`. -/
def pyStrip (s : String) : String := String.mk (pyStripL s.data)

/-- One pass of `re.sub(r"\s+", " ", ...)`: every maximal whitespace run
becomes one space. The flag records whether the previous character was
part of a whitespace run. -/
def collapseWSAux : Bool → List Char → List Char
  | _, [] => []
  | prev, c :: rest =>
    if isPySpace c then
      if prev then collapseWSAux true rest
      else ' ' :: collapseWSAux true rest
    else c :: collapseWSAux false rest

/-- `re.sub(r"\s+", " ", s.strip())` — the cleanup applied by `get_text`. -/
def normalizeWS (s : String) : String :=
  String.mk (collapseWSAux false (pyStripL s.data))

/-- `str.split()` with no separator: maximal non-whitespace runs, in order.
`acc` holds the current word, reversed. -/
def pyWordsAux : List Char → List Char → List (List Char)
  | [], acc => if acc.isEmpty then [] else [acc.reverse]
  | c :: rest, acc =>
    if isPySpace c then
      if acc.isEmpty then pyWordsAux rest []
      else acc.reverse :: pyWordsAux rest []
    else pyWordsAux rest (c :: acc)

/-- `str.split()`. -/
def pyWords (s : String) : List String :=
  (pyWordsAux s.data []).map String.mk

/-- `str.splitlines()`: split at `\n`, `\r` and `\r\n`; a trailing terminator
does not produce a final empty line, and the empty string has no lines. -/
def pySplitlinesAux : List Char → List Char → List String
  | [], acc => if acc.isEmpty then [] else [String.mk acc.reverse]
  | '\r' :: '\n' :: rest, acc => String.mk acc.reverse :: pySplitlinesAux rest []
  | '\n' :: rest, acc => String.mk acc.reverse :: pySplitlinesAux rest []
  | '\r' :: rest, acc => String.mk acc.reverse :: pySplitlinesAux rest []
  | c :: rest, acc => pySplitlinesAux rest (c :: acc)

/-- `str.splitlines()`. -/
def pySplitlines (s : String) : List String := pySplitlinesAux s.data []

/-- Python `a or b` on strings: `b` if `a` is empty (falsy), else `a`. -/
def pyOr (a b : String) : String := if a = "" then b else a

/-- `sep.join(l)` (Python `str.join`). -/
def pyJoin (sep : String) : List String → String
  | [] => ""
  | [s] => s
  | s :: rest => s ++ sep ++ pyJoin sep rest

/-- Does `needle` occur at the start of `hay`? (helper for the `in` operator). -/
def listStartsWith : List Char → List Char → Bool
  | [], _ => true
  | _ :: _, [] => false
  | a :: as, b :: bs => a == b && listStartsWith as bs

/-- Does `needle` occur anywhere inside `hay`? -/
def listContainsSub (needle : List Char) : List Char → Bool
  | [] => needle.isEmpty
  | c :: rest => listStartsWith needle (c :: rest) || listContainsSub needle rest

/-- Python `needle in hay` on strings (substring test). -/
def pyIn (needle hay : String) : Bool := listContainsSub needle.data hay.data

/-- Python slice `l[a:b]` (for step 1): negative indices count from the end,
then both bounds are clamped to `[0, len(l)]`. -/
def pySlice (l : List α) (a b : Int) : List α :=
  let n : Int := l.length
  let a' : Int := if a < 0 then max (n + a) 0 else min a n
  let b' : Int := if b < 0 then max (n + b) 0 else min b n
  (l.take b'.toNat).drop a'.toNat

/-- Python slice `s[a:b]` on strings. -/
def pySliceStr (s : String) (a b : Int) : String := String.mk (pySlice s.data a b)

/-- Number of elements of `range(start, stop, step)` for `step ≠ 0`
(Python: `max(0, ceil((stop - start) / step))`). -/
def pyRangeLen (start stop step : Int) : Nat :=
  if 0 < step then ((stop - start + step - 1) / step).toNat
  else ((start - stop + (-step) - 1) / (-step)).toNat

/-- The elements of `range(start, stop, step)` for `step ≠ 0`. -/
def pyRangeList (start stop step : Int) : List Int :=
  (List.range (pyRangeLen start stop step)).map (fun j : Nat => start + step * (j : Int))

/-- Python `range(start, stop, step)`: raises `ValueError` when `step = 0`. -/
def pyRange (start stop step : Int) : Except PyExn (List Int) :=
  if step = 0 then .error .valueError
  else .ok (pyRangeList start stop step)

/-- Truthiness of an `Optional[str]`: `None` and the empty string are falsy. -/
def pyTruthy : Option String → Bool
  | none => false
  | some s => s ≠ ""

/-! ## XML elements (the fragment of `xml.etree.ElementTree` the code uses) -/

/-- One parsed XML element: tag, attributes, text, and child elements. -/
inductive XmlElement where
  | mk (tag : String) (attrib : List (String × String)) (text : Option String)
       (children : List XmlElement)

def XmlElement.tag : XmlElement → String
  | .mk t _ _ _ => t

def XmlElement.attrib : XmlElement → List (String × String)
  | .mk _ a _ _ => a

def XmlElement.text : XmlElement → Option String
  | .mk _ _ x _ => x

def XmlElement.children : XmlElement → List XmlElement
  | .mk _ _ _ cs => cs

mutual

/-- All strict descendants of an element, in document (preorder) order. -/
def XmlElement.descendants : XmlElement → List XmlElement
  | .mk _ _ _ cs => descList cs

/-- Preorder listing of a forest: each root followed by its descendants. -/
def descList : List XmlElement → List XmlElement
  | [] => []
  | c :: rest => c :: (XmlElement.descendants c ++ descList rest)

end

/-- One step of the (limited) XPath dialect used by the code:
a child tag (`A`), a child tag with an attribute filter (`A[@k='v']`),
or a descendant tag (`.//A`). -/
inductive Step where
  | child (tag : String)
  | childAttr (tag : String) (key : String) (val : String)
  | descendant (tag : String)

/-- Apply one path step to a list of context elements, in document order. -/
def applyStep (es : List XmlElement) : Step → List XmlElement
  | .child t => es.flatMap fun e => e.children.filter fun c => c.tag == t
  | .childAttr t k v =>
      es.flatMap fun e => e.children.filter fun c =>
        c.tag == t && (c.attrib.lookup k == some v)
  | .descendant t =>
      es.flatMap fun e => (descList e.children).filter fun c => c.tag == t

/-- `element.findall(path)` for the relative paths used by the code. -/
def ET_findall (e : XmlElement) (path : List Step) : List XmlElement :=
  path.foldl applyStep [e]

/-- `element.find(path)`: first match in document order, if any. -/
def ET_find (e : XmlElement) (path : List Step) : Option XmlElement :=
  (ET_findall e path).head?

/-! ## Data model (Pydantic `Article`, `SearchRequest`) -/

/-- The `Article` Pydantic model, with its field defaults. -/
structure Article where
  pmid : String
  title : String
  first_author : String
  authors : String
  year : String
  journal : Option String := some "N/A"
  abstract : String
  pmcid : Option String := some ""
  full_text : Option String := some "NOT_ATTEMPTED"
deriving DecidableEq, Repr

/-- The `SearchRequest` Pydantic model, with its field defaults. -/
structure SearchRequest where
  query : String
  start_date : String := "1900/01/01"
  stop_date : String := "3000/01/01"
  limit : Int := 100
  chunk_size : Int := 50
  exclude_preprints : Bool := true
  free_full_text_only : Bool := false
  fetch_full_text : Bool := false

/-! ## XML record parser (`parse_article_xml`, main.py lines 157-191) -/

/-- The helper `get_text(element, path)` for a non-null element: text of the
first node on `path`, whitespace-cleaned, or the empty string. -/
def get_text (element : XmlElement) (path : List Step) : String :=
  match ET_find element path with
  | some node =>
    match node.text with
    | some t => normalizeWS t
    | none => ""
  | none => ""

/-- `get_text` as called on a possibly-null element: Python raises
`AttributeError` when `element` is `None` (calling `None.find`). -/
def get_text_checked (element : Option XmlElement) (path : List Step) :
    Except PyExn String :=
  match element with
  | none => .error .attributeError
  | some el => .ok (get_text el path)

def pmidPath : List Step := [.child "MedlineCitation", .child "PMID"]
def titlePath : List Step :=
  [.child "MedlineCitation", .child "Article", .child "ArticleTitle"]
def authorsPath : List Step :=
  [.child "MedlineCitation", .child "Article", .child "AuthorList", .child "Author"]
def journalPath : List Step :=
  [.child "MedlineCitation", .child "Article", .child "Journal", .child "Title"]
def abstractPath : List Step :=
  [.child "MedlineCitation", .child "Article", .child "Abstract", .child "AbstractText"]
def pubdatePath : List Step :=
  [.child "MedlineCitation", .child "Article", .child "Journal",
   .child "JournalIssue", .child "PubDate"]
def artDateYearPath : List Step := [.descendant "ArticleDate", .child "Year"]
def pmcidPath : List Step :=
  [.child "PubmedData", .child "ArticleIdList", .childAttr "ArticleId" "IdType" "pmc"]

/-- The author list comprehension: for each `Author` child with a non-empty
`LastName`, the given name and family name joined by one space and stripped
(`get_text(a, ...) or ...` leaves the empty string unchanged). -/
def authorNames (el : XmlElement) : List String :=
  (ET_findall el authorsPath).filterMap fun a =>
    if get_text a [Step.child "LastName"] ≠ "" then
      some (pyStrip (get_text a [Step.child "ForeName"] ++ " "
                     ++ get_text a [Step.child "LastName"]))
    else none

/-- The first-author display string: last word, comma, first letter of the
first word and a dot, when the first counted author splits into several words
(guarded by the first word being truthy); the single word when it splits into
exactly one; else `"NO_AUTHOR"`. -/
def firstAuthorFromParts (parts : List String) : String :=
  match parts with
  | [] => "NO_AUTHOR"
  | [p] => p
  | p0 :: rest =>
    match p0.data with
    | c :: _ => (p0 :: rest).getLast (by simp) ++ ", " ++ String.mk [c] ++ "."
    | [] => "NO_AUTHOR"

def firstAuthorDisplay (authors_list : List String) : String :=
  match authors_list with
  | [] => "NO_AUTHOR"
  | a0 :: _ => firstAuthorFromParts (pyWords a0)

/-- The abstract: all `AbstractText` fragment texts that are truthy, joined
with single spaces (raw, NOT whitespace-normalized), then stripped. -/
def abstractJoined (el : XmlElement) : String :=
  pyStrip (pyJoin " " ((ET_findall el abstractPath).filterMap fun nd =>
    match nd.text with
    | some t => if t ≠ "" then some t else none
    | none => none))

/-- The `pmcid` value: raw text of the `pmc` article id node if it exists
(possibly null), else the empty string. Taken verbatim, never cleaned. -/
def pmcidValue (el : XmlElement) : Option String :=
  match ET_find el pmcidPath with
  | some nd => nd.text
  | none => some ""

/-- The body of `parse_article_xml` inside its `try`. The only statement that
can raise is the year lookup `get_text(el.find(".../PubDate"), "Year")`: when
the `PubDate` element is missing, Python calls `None.find` and raises
`AttributeError`. All other field extractions are total and are written here
as pure `let`s (the source computes them, in the same way, before the year). -/
def parse_body (el : XmlElement) : Except PyExn (Option Article) :=
  let pmid := get_text el pmidPath
  if pmid = "" then .ok none
  else
    let title := pyOr (get_text el titlePath) "NO_TITLE"
    let authors_list := authorNames el
    let authors_str := pyOr (pyJoin ", " authors_list) "NO_AUTHORS"
    let first_author_display := firstAuthorDisplay authors_list
    let journal := pyOr (get_text el journalPath) "N/A"
    let abstract := pyOr (abstractJoined el) "NO_ABSTRACT"
    match get_text_checked (ET_find el pubdatePath) [Step.child "Year"] with
    | .error e => .error e
    | .ok y1 =>
      let year := pyOr (pyOr y1 (get_text el artDateYearPath)) "NO_YEAR"
      .ok (some { pmid := pmid, title := title,
                  first_author := first_author_display,
                  authors := authors_str, year := year,
                  journal := some journal, abstract := abstract,
                  pmcid := pmcidValue el })

/-- `parse_article_xml`: the `try`/`except Exception` wrapper — any exception
from the body is caught and the record is skipped (`None`). -/
def parse_article_xml (el : XmlElement) : Option Article :=
  match parse_body el with
  | .ok r => r
  | .error _ => none

/-! ## Full-text scraper (`scrape_full_text`, main.py lines 137-155) -/

def PMC_ARTICLE_URL : String := "https://www.ncbi.nlm.nih.gov/pmc/articles/"

/-- The outcome of the one outbound GET of the scraper, as seen by the code:
either a transport failure (`requests.exceptions.RequestException` with the
given message, which also covers `raise_for_status`), or a parsed page on
which the container lookup either fails or yields the paragraph texts. -/
inductive ScrapeResp where
  | netErr (msg : String)
  | page (container : Option (List String))

/-- `scrape_full_text(pmcid)` given the outcome of its GET. In the except
branch the code computes `str(e).splitlines()[0]`; for an empty message
`splitlines()` is `[]` and the indexing raises `IndexError`, which is not
caught by anything.  Paragraph texts are `p.get_text(strip=True)`, modelled
as stripping each raw paragraph text. -/
def scrape_full_text (pmcid : String) (resp : ScrapeResp) : Except PyExn String :=
  let _url := PMC_ARTICLE_URL ++ pmcid ++ "/"
  match resp with
  | .page container =>
    match container with
    | none => .ok "FULL_TEXT_CONTAINER_NOT_FOUND"
    | some paras =>
      let full_text := pyJoin " " (paras.map pyStrip)
      .ok (if full_text = "" then "FULL_TEXT_EMPTY" else full_text)
  | .netErr msg =>
    match pySplitlines msg with
    | [] => .error .indexError
    | l0 :: _ => .ok ("SCRAPING_FAILED: " ++ l0)

/-! ## Remote ID search (`search_pmids`, main.py lines 101-121) -/

/-- The search term with its optional filter clauses. -/
def build_search_term (query : String) (exclude_preprints free_full_text_only : Bool) :
    String :=
  let t := "(" ++ query ++ ")"
  let t := if exclude_preprints then t ++ " NOT preprint[pt]" else t
  if free_full_text_only then t ++ " AND free full text[filter]" else t

/-- `search_pmids` given the outcome of its one GET: on success the decoded
id list is turned into a Python `set` (modelled as a deduplicated list); on a
transport failure the error is logged and the empty set is returned. -/
def search_pmids (resp : Except String (List String)) : List String :=
  match resp with
  | .ok pmids => pmids.dedup
  | .error _ => []

/-! ## Search orchestrator (`search_endpoint`, main.py lines 220-250) -/

/-- What one detail-fetch of a chunk produced, as seen by the loop body:
no data (network failure, or a falsy response body), raw XML that fails
`ET.fromstring` (after control-character cleaning), or a parsed root. -/
inductive ChunkFetch where
  | noData
  | parseError
  | parsed (root : XmlElement)

/-- The optional full-text attachment performed on each parsed record:
scrape only when requested and the record has a truthy `pmcid`. The
`scrape` argument abstracts `scrape_full_text` together with its network. -/
def attach_full_text (req : SearchRequest) (scrape : String → String) (art : Article) :
    Article :=
  if req.fetch_full_text && pyTruthy art.pmcid then
    { art with full_text := some (scrape (art.pmcid.getD "")) }
  else art

/-- The body of one loop iteration over a chunk: fetch (falsy data skips the
chunk), parse the XML (an `ET.ParseError` is caught, logged and skips the
chunk), then parse each `PubmedArticle` record and attach full text. -/
def processChunk (req : SearchRequest) (fetch : List String → ChunkFetch)
    (scrape : String → String) (chunk : List String) : List Article :=
  match fetch chunk with
  | .noData => []
  | .parseError => []
  | .parsed root =>
    (ET_findall root [Step.child "PubmedArticle"]).filterMap fun ax =>
      (parse_article_xml ax).map (attach_full_text req scrape)

/-- The identifier list the endpoint actually processes:
`list(all_pmids)[:request.limit]`. -/
def pmid_list_of (req : SearchRequest) (esearch : Except String (List String)) :
    List String :=
  pySlice (search_pmids esearch) 0 req.limit

/-- The chunks the loop slices out: `pmid_list[i:i+chunk_size]` for
`i in range(0, len(pmid_list), chunk_size)`. -/
def search_chunks (req : SearchRequest) (esearch : Except String (List String)) :
    List (List String) :=
  let pmid_list := pmid_list_of req esearch
  (pyRangeList 0 pmid_list.length req.chunk_size).map fun i =>
    pySlice pmid_list i (i + req.chunk_size)

/-- `search_endpoint`: id search, truncation to `limit`, early return on an
empty list, then the chunked fetch-parse-scrape loop accumulating
`articles_data`. `range` with a zero step raises `ValueError`, which nothing
catches. `fetch` abstracts `get_details_for_pmids` plus the control-character
cleaning and `ET.fromstring`; `scrape` abstracts `scrape_full_text`. -/
def search_endpoint (req : SearchRequest) (esearch : Except String (List String))
    (fetch : List String → ChunkFetch) (scrape : String → String) :
    Except PyExn (List Article) :=
  let pmid_list := pmid_list_of req esearch
  if pmid_list = [] then .ok []
  else
    match pyRange 0 pmid_list.length req.chunk_size with
    | .error e => .error e
    | .ok indices =>
      .ok (indices.foldl
        (fun acc i =>
          acc ++ processChunk req fetch scrape (pySlice pmid_list i (i + req.chunk_size)))
        [])

/-! ## Gap analyzer (`analyze_endpoint`, main.py lines 252-268) -/

def prompt_header : String :=
  "You are a research assistant. Synthesize research gaps from the provided articles into a concise list. For each gap, cite the source in parentheses (First Author, Year).\n\nExample:\n- The efficacy of treatment Y has not been tested in pediatric populations (Jones, 2021).\n\n--- START OF ARTICLES ---\n"

/-- The citation rendered for one article. -/
def citation (a : Article) : String :=
  "(" ++ a.first_author ++ ", " ++ a.year ++ ")"

/-- The text chosen for one article: its `full_text` when that is truthy and
does not contain the substring `NOT_ATTEMPTED`, otherwise its abstract.
(The `and` short-circuits, so the `in` test never sees `None`.) -/
def text_content (a : Article) : String :=
  match a.full_text with
  | none => a.abstract
  | some ft => if ft ≠ "" ∧ pyIn "NOT_ATTEMPTED" ft = false then ft else a.abstract

/-- The per-article blocks, each with its chosen text truncated to 3000
characters before concatenation. -/
def article_texts (articles : List Article) : List String :=
  articles.enum.map fun p =>
    "ARTICLE " ++ toString (p.1 + 1) ++ " " ++ citation p.2 ++ ":\n"
      ++ pySliceStr (text_content p.2) 0 3000 ++ "...\n"

/-- The assembled prompt: header plus newline-joined blocks, truncated
overall to 30000 characters before being sent upstream. -/
def full_prompt (articles : List Article) : String :=
  pySliceStr (prompt_header ++ pyJoin "\n" (article_texts articles)) 0 30000


/-! ## Concrete fixtures used by witnesses and counterexamples -/

/-- A record with a PMID but no `PubDate` element: the year lookup raises
`AttributeError` inside the parse body. -/
def elC4 : XmlElement :=
  .mk "PubmedArticle" [] none
    [.mk "MedlineCitation" [] none
      [.mk "PMID" [] (some "4") [], .mk "Article" [] none []]]

/-- A record with a title but no PMID. -/
def elC5 : XmlElement :=
  .mk "PubmedArticle" [] none
    [.mk "MedlineCitation" [] none
      [.mk "Article" [] none [.mk "ArticleTitle" [] (some "Only title") []]]]

/-- A record whose abstract fragment contains a double space. -/
def elC2cex : XmlElement :=
  .mk "PubmedArticle" [] none
    [.mk "MedlineCitation" [] none
      [.mk "PMID" [] (some "2") [],
       .mk "Article" [] none
         [.mk "Journal" [] none
            [.mk "JournalIssue" [] none
              [.mk "PubDate" [] none [.mk "Year" [] (some "2019") []]]],
          .mk "Abstract" [] none
            [.mk "AbstractText" [] (some "two  spaces") []]]]]

def artC2cex : Article :=
  { pmid := "2", title := "NO_TITLE", first_author := "NO_AUTHOR",
    authors := "NO_AUTHORS", year := "2019", journal := some "N/A",
    abstract := "two  spaces", pmcid := some "", full_text := some "NOT_ATTEMPTED" }

/-- A full record with messy whitespace in the fields the parser cleans. -/
def elC2w : XmlElement :=
  .mk "PubmedArticle" [] none
    [.mk "MedlineCitation" [] none
      [.mk "PMID" [] (some " 42 ") [],
       .mk "Article" [] none
         [.mk "ArticleTitle" [] (some "  Root   imaging ") [],
          .mk "AuthorList" [] none
            [.mk "Author" [] none
              [.mk "LastName" [] (some "Doe") [],
               .mk "ForeName" [] (some " Jane  Q ") []],
             .mk "Author" [] none
              [.mk "LastName" [] (some "Roe") []]],
          .mk "Journal" [] none
            [.mk "Title" [] (some "Plant  Methods") [],
             .mk "JournalIssue" [] none
              [.mk "PubDate" [] none [.mk "Year" [] (some "2021") []]]],
          .mk "Abstract" [] none
            [.mk "AbstractText" [] (some " Soil.") []]]]]

def artC2w : Article :=
  { pmid := "42", title := "Root imaging", first_author := "Doe, J.",
    authors := "Jane Q Doe, Roe", year := "2021", journal := some "Plant Methods",
    abstract := "Soil.", pmcid := some "", full_text := some "NOT_ATTEMPTED" }

/-- Articles exercising the text-selection rule of the analyzer. -/
def artC3cex : Article :=
  { pmid := "31", title := "T", first_author := "Doe, J.", authors := "Jane Doe",
    year := "2020", abstract := "The abstract.", full_text := some "FULL_TEXT_EMPTY" }

def artC3full : Article :=
  { pmid := "32", title := "T", first_author := "Doe, J.", authors := "Jane Doe",
    year := "2020", abstract := "Abs.", full_text := some "Body text." }

def artC3none : Article :=
  { pmid := "33", title := "T", first_author := "Doe, J.", authors := "Jane Doe",
    year := "2020", abstract := "Abs2.", full_text := none }

/-- Fixture for the analyzer truncation claim. -/
def artC9 : Article :=
  { pmid := "9", title := "T", first_author := "Kim, A.", authors := "A Kim",
    year := "2022", abstract := "Short abstract.", full_text := none }

/-- Requests and detail-fetch roots for the search-endpoint claims. -/
def reqNegLimit : SearchRequest := { query := "q", limit := -1, chunk_size := 1 }

def elC6 : XmlElement :=
  .mk "PubmedArticle" [] none
    [.mk "MedlineCitation" [] none
      [.mk "PMID" [] (some "10") [],
       .mk "Article" [] none
         [.mk "Journal" [] none
            [.mk "JournalIssue" [] none
              [.mk "PubDate" [] none [.mk "Year" [] (some "2020") []]]]]]]

def rootC6 : XmlElement := .mk "PubmedArticleSet" [] none [elC6]

def artC6 : Article :=
  { pmid := "10", title := "NO_TITLE", first_author := "NO_AUTHOR",
    authors := "NO_AUTHORS", year := "2020", journal := some "N/A",
    abstract := "NO_ABSTRACT", pmcid := some "", full_text := some "NOT_ATTEMPTED" }

def reqC6w : SearchRequest := { query := "q", limit := 1, chunk_size := 1 }

def reqC8 : SearchRequest := { query := "q", limit := 2, chunk_size := 1 }

def elC8 : XmlElement :=
  .mk "PubmedArticle" [] none
    [.mk "MedlineCitation" [] none
      [.mk "PMID" [] (some "31") [],
       .mk "Article" [] none
         [.mk "Journal" [] none
            [.mk "JournalIssue" [] none
              [.mk "PubDate" [] none [.mk "Year" [] (some "2018") []]]]]]]

def rootC8 : XmlElement := .mk "PubmedArticleSet" [] none [elC8]

def artC8 : Article :=
  { pmid := "31", title := "NO_TITLE", first_author := "NO_AUTHOR",
    authors := "NO_AUTHORS", year := "2018", journal := some "N/A",
    abstract := "NO_ABSTRACT", pmcid := some "", full_text := some "NOT_ATTEMPTED" }

/-- A fetch oracle for the C8 witness: the first chunk fails XML parsing, the
second parses to one record. -/
def fetchC8 : List String → ChunkFetch :=
  fun c => if c = ["31"] then ChunkFetch.parsed rootC8 else ChunkFetch.parseError

def reqZeroChunk : SearchRequest := { query := "q", chunk_size := 0 }

def reqNegChunk : SearchRequest := { query := "q", chunk_size := -5 }

/-! ## Whitespace normal form

`isNormalized s`: every whitespace character of `s` is a plain space, no two
spaces are adjacent, and `s` neither starts nor ends with a space — i.e. runs
of whitespace have been collapsed to single spaces and the ends trimmed. -/

/-- Any whitespace character present must be the plain space. -/
def okChar (c : Char) : Bool := !(isPySpace c) || c == ' '

/-- No two adjacent spaces. -/
def noDbl : List Char → Bool
  | a :: b :: rest => !(a == ' ' && b == ' ') && noDbl (b :: rest)
  | _ => true

def isNormalizedL (l : List Char) : Bool :=
  l.all okChar && noDbl l && !(l.head? == some ' ') && !(l.getLast? == some ' ')

def isNormalized (s : String) : Bool := isNormalizedL s.data

theorem ne_space_of_not_isPySpace {c : Char} (h : isPySpace c = false) : c ≠ ' ' := by
  intro hc
  subst hc
  cases h

theorem collapseWSAux_cons (b : Bool) (c : Char) (rest : List Char) :
    collapseWSAux b (c :: rest) =
      if isPySpace c then
        (if b then collapseWSAux true rest else ' ' :: collapseWSAux true rest)
      else c :: collapseWSAux false rest := rfl

theorem noDbl_cons_cons (a b : Char) (rest : List Char) :
    noDbl (a :: b :: rest) = (!(a == ' ' && b == ' ') && noDbl (b :: rest)) := rfl

theorem okChar_of_not_space {c : Char} (h : isPySpace c = false) : okChar c = true := by
  simp [okChar, h]

theorem collapseWSAux_all_okChar : ∀ (l : List Char) (b : Bool),
    (collapseWSAux b l).all okChar = true := by
  intro l
  induction l with
  | nil => intro b; rfl
  | cons c rest ih =>
    intro b
    rw [collapseWSAux_cons]
    by_cases h : isPySpace c = true
    · rw [if_pos h]
      cases b with
      | true => exact ih true
      | false =>
        rw [if_neg (by simp)]
        rw [List.all_cons, Bool.and_eq_true]
        exact ⟨rfl, ih true⟩
    · simp only [Bool.not_eq_true] at h
      rw [if_neg (by simp [h])]
      rw [List.all_cons, Bool.and_eq_true]
      exact ⟨okChar_of_not_space h, ih false⟩

theorem collapseWSAux_true_head? : ∀ (l : List Char),
    (collapseWSAux true l).head? ≠ some ' ' := by
  intro l
  induction l with
  | nil => simp [collapseWSAux]
  | cons c rest ih =>
    rw [collapseWSAux_cons]
    by_cases h : isPySpace c = true
    · rw [if_pos h, if_pos rfl]
      exact ih
    · simp only [Bool.not_eq_true] at h
      rw [if_neg (by simp [h])]
      simp only [List.head?_cons, ne_eq, Option.some.injEq]
      exact ne_space_of_not_isPySpace h

/-- A cons is double-space-free when the tail is and no space pair straddles
the head. -/
theorem noDbl_cons {a : Char} {l : List Char} (hl : noDbl l = true)
    (hb : a = ' ' → l.head? ≠ some ' ') : noDbl (a :: l) = true := by
  cases l with
  | nil => rfl
  | cons x xs =>
    rw [noDbl_cons_cons, Bool.and_eq_true]
    refine ⟨?_, hl⟩
    by_cases ha : a = ' '
    · have hx : x ≠ ' ' := by
        intro hx
        exact hb ha (by simp [hx])
      simp [ha, hx]
    · simp [ha]

theorem collapseWSAux_noDbl : ∀ (l : List Char) (b : Bool),
    noDbl (collapseWSAux b l) = true := by
  intro l
  induction l with
  | nil => intro b; rfl
  | cons c rest ih =>
    intro b
    rw [collapseWSAux_cons]
    by_cases h : isPySpace c = true
    · rw [if_pos h]
      cases b with
      | true => exact ih true
      | false =>
        rw [if_neg (by simp)]
        exact noDbl_cons (ih true) (fun _ => collapseWSAux_true_head? rest)
    · simp only [Bool.not_eq_true] at h
      rw [if_neg (by simp [h])]
      exact noDbl_cons (ih false) (fun hc => absurd hc (ne_space_of_not_isPySpace h))

theorem getLast?_cons_of_ne_nil {a : α} {l : List α} (h : l ≠ []) :
    (a :: l).getLast? = l.getLast? := by
  have := List.getLast?_append_of_ne_nil [a] h
  simpa using this

theorem collapseWSAux_getLast? : ∀ (l : List Char) (b : Bool) (c : Char),
    l.getLast? = some c → isPySpace c = false →
    (collapseWSAux b l).getLast? = some c := by
  intro l
  induction l with
  | nil => intro b c h; cases h
  | cons a rest ih =>
    intro b c h hc
    cases rest with
    | nil =>
      simp only [List.getLast?_singleton, Option.some.injEq] at h
      subst h
      have ha : isPySpace a = false := hc
      rw [collapseWSAux_cons, if_neg (by simp [ha])]
      rfl
    | cons r rs =>
      have hrest : (r :: rs).getLast? = some c := by
        rw [← getLast?_cons_of_ne_nil (a := a) (by simp)]
        exact h
      have htail : ∀ b, (collapseWSAux b (r :: rs)).getLast? = some c :=
        fun b => ih b c hrest hc
      have hne : ∀ b, collapseWSAux b (r :: rs) ≠ [] := by
        intro b hnil
        have := htail b
        rw [hnil] at this
        cases this
      rw [collapseWSAux_cons]
      by_cases ha : isPySpace a = true
      · rw [if_pos ha]
        cases b with
        | true => rw [if_pos rfl]; exact htail true
        | false =>
          rw [if_neg (by simp)]
          rw [getLast?_cons_of_ne_nil (hne true)]
          exact htail true
      · simp only [Bool.not_eq_true] at ha
        rw [if_neg (by simp [ha])]
        rw [getLast?_cons_of_ne_nil (hne false)]
        exact htail false

theorem dropWhile_head?_false {p : α → Bool} :
    ∀ (l : List α) (c : α), (l.dropWhile p).head? = some c → p c = false := by
  intro l
  induction l with
  | nil => intro c h; cases h
  | cons a rest ih =>
    intro c h
    by_cases ha : p a = true
    · rw [List.dropWhile_cons, if_pos ha] at h
      exact ih c h
    · simp only [Bool.not_eq_true] at ha
      rw [List.dropWhile_cons, if_neg (by simp [ha])] at h
      simp only [List.head?_cons, Option.some.injEq] at h
      subst h
      exact ha

/-- A nonempty `dropWhile` result keeps the last element of the input. -/
theorem dropWhile_getLast? {p : α → Bool} {l : List α} (h : l.dropWhile p ≠ []) :
    (l.dropWhile p).getLast? = l.getLast? := by
  conv_rhs => rw [← List.takeWhile_append_dropWhile (p := p) (l := l)]
  exact (List.getLast?_append_of_ne_nil _ h).symm

theorem pyStripL_head? {l : List Char} {c : Char} (h : (pyStripL l).head? = some c) :
    isPySpace c = false := by
  unfold pyStripL at h
  rw [List.head?_reverse] at h
  have hne : (l.dropWhile isPySpace).reverse.dropWhile isPySpace ≠ [] := by
    intro hnil
    rw [hnil] at h
    cases h
  rw [dropWhile_getLast? hne, List.getLast?_reverse] at h
  exact dropWhile_head?_false _ _ h

theorem pyStripL_getLast? {l : List Char} {c : Char}
    (h : (pyStripL l).getLast? = some c) : isPySpace c = false := by
  unfold pyStripL at h
  rw [List.getLast?_reverse] at h
  exact dropWhile_head?_false _ _ h

theorem isNormalizedL_iff {l : List Char} :
    isNormalizedL l = true ↔
      l.all okChar = true ∧ noDbl l = true ∧ l.head? ≠ some ' ' ∧
        l.getLast? ≠ some ' ' := by
  simp [isNormalizedL, Bool.and_eq_true, and_assoc]

/-- Output of the `get_text` cleanup is in whitespace normal form. -/
theorem normalizeWS_normalized (s : String) : isNormalized (normalizeWS s) = true := by
  rw [isNormalized, normalizeWS]
  show isNormalizedL (collapseWSAux false (pyStripL s.data)) = true
  rcases hl : pyStripL s.data with _ | ⟨a, t⟩
  · decide
  · have ha : isPySpace a = false := pyStripL_head? (by rw [hl]; rfl)
    rw [isNormalizedL_iff]
    refine ⟨collapseWSAux_all_okChar _ _, collapseWSAux_noDbl _ _, ?_, ?_⟩
    · rw [collapseWSAux_cons, if_neg (by simp [ha])]
      simp only [List.head?_cons, ne_eq, Option.some.injEq]
      exact ne_space_of_not_isPySpace ha
    · obtain ⟨hne, hd⟩ : (a :: t) ≠ [] ∧ (a :: t).getLast? =
          some ((a :: t).getLast (by simp)) :=
        ⟨by simp, List.getLast?_eq_getLast_of_ne_nil _⟩
      have hdns : isPySpace ((a :: t).getLast (by simp)) = false :=
        pyStripL_getLast? (by rw [hl]; exact hd)
      rw [collapseWSAux_getLast? _ _ _ hd hdns]
      simp only [ne_eq, Option.some.injEq]
      exact ne_space_of_not_isPySpace hdns

theorem isNormalized_empty : isNormalized "" = true := rfl

theorem get_text_checked_ok {oe : Option XmlElement} {p : List Step} {y : String}
    (h : get_text_checked oe p = .ok y) : ∃ el, oe = some el ∧ y = get_text el p := by
  cases oe with
  | none => cases h
  | some el =>
    simp only [get_text_checked, Except.ok.injEq] at h
    exact ⟨el, rfl, h.symm⟩

/-- Every `get_text` result is in whitespace normal form. -/
theorem get_text_normalized (el : XmlElement) (p : List Step) :
    isNormalized (get_text el p) = true := by
  unfold get_text
  split
  · split
    · exact normalizeWS_normalized _
    · exact isNormalized_empty
  · exact isNormalized_empty

theorem pyOr_normalized {a b : String} (ha : isNormalized a = true)
    (hb : isNormalized b = true) : isNormalized (pyOr a b) = true := by
  unfold pyOr
  split
  · exact hb
  · exact ha

/-! ### Stripping facts -/

theorem dropWhile_eq_self_of_head {p : α → Bool} {w : List α}
    (h : ∀ c, w.head? = some c → p c = false) : w.dropWhile p = w := by
  cases w with
  | nil => rfl
  | cons a t =>
    rw [List.dropWhile_cons, if_neg (by simp [h a rfl])]

/-- A list whose two ends are not whitespace is unchanged by `strip`. -/
theorem pyStripL_eq_self {l : List Char}
    (h1 : ∀ c, l.head? = some c → isPySpace c = false)
    (h2 : ∀ c, l.getLast? = some c → isPySpace c = false) : pyStripL l = l := by
  unfold pyStripL
  rw [dropWhile_eq_self_of_head h1]
  rw [dropWhile_eq_self_of_head (by
    intro c hc
    rw [List.head?_reverse] at hc
    exact h2 c hc)]
  exact List.reverse_reverse l

theorem pyStripL_idem (l : List Char) : pyStripL (pyStripL l) = pyStripL l :=
  pyStripL_eq_self (fun _ h => pyStripL_head? h) (fun _ h => pyStripL_getLast? h)

/-- `strip` is idempotent (`str.strip()` of a stripped string). -/
theorem pyStrip_idem (s : String) : pyStrip (pyStrip s) = pyStrip s := by
  unfold pyStrip
  rw [show (String.mk (pyStripL s.data)).data = pyStripL s.data from rfl]
  rw [pyStripL_idem]

theorem string_eq_empty_of_data {s : String} (h : s.data = []) : s = "" := by
  cases s with
  | mk d =>
    simp only at h
    subst h
    rfl

theorem data_ne_nil_of_ne_empty {s : String} (h : s ≠ "") : s.data ≠ [] :=
  fun hd => h (string_eq_empty_of_data hd)

/-- A normalized list is unchanged by `strip`. -/
theorem pyStripL_of_normalized {l : List Char} (h : isNormalizedL l = true) :
    pyStripL l = l := by
  rw [isNormalizedL_iff] at h
  obtain ⟨hok, -, hh, hl⟩ := h
  refine pyStripL_eq_self ?_ ?_
  · intro c hc
    have hmem : c ∈ l := List.mem_of_mem_head? (by simp [hc])
    have := List.all_eq_true.mp hok c hmem
    by_contra hcs
    simp only [Bool.not_eq_false] at hcs
    simp only [okChar, hcs, Bool.not_true, Bool.false_or, beq_iff_eq] at this
    rw [hc, this] at hh
    exact hh rfl
  · intro c hc
    have hmem : c ∈ l := by
      obtain ⟨hne, rfl⟩ := List.mem_getLast?_eq_getLast (l := l) (x := c) (by simp [hc])
      exact List.getLast_mem hne
    have := List.all_eq_true.mp hok c hmem
    by_contra hcs
    simp only [Bool.not_eq_false] at hcs
    simp only [okChar, hcs, Bool.not_true, Bool.false_or, beq_iff_eq] at this
    rw [hc, this] at hl
    exact hl rfl

/-- A normalized string is unchanged by `strip`. -/
theorem pyStrip_of_normalized {s : String} (h : isNormalized s = true) :
    pyStrip s = s := by
  unfold pyStrip
  rw [pyStripL_of_normalized h]

theorem pyStripL_cons_space {c : Char} (h : isPySpace c = true) (l : List Char) :
    pyStripL (c :: l) = pyStripL l := by
  unfold pyStripL
  rw [List.dropWhile_cons, if_pos h]

/-! ### Gluing normalized pieces -/

theorem noDbl_append {x y : List Char} (hx : noDbl x = true) (hy : noDbl y = true)
    (hxy : x.getLast? = some ' ' → y.head? ≠ some ' ') : noDbl (x ++ y) = true := by
  induction x with
  | nil => simpa using hy
  | cons a xs ih =>
    cases xs with
    | nil =>
      simp only [List.cons_append, List.nil_append]
      exact noDbl_cons hy (fun ha => hxy (by simp [ha]))
    | cons b xs2 =>
      rw [noDbl_cons_cons, Bool.and_eq_true] at hx
      have htail : noDbl ((b :: xs2) ++ y) = true :=
        ih hx.2 (fun hb => hxy (by rw [getLast?_cons_of_ne_nil (by simp)]; exact hb))
      simp only [List.cons_append] at htail ⊢
      rw [noDbl_cons_cons, Bool.and_eq_true]
      exact ⟨hx.1, htail⟩

theorem head?_ne_space_of_normalized {l : List Char} (h : isNormalizedL l = true) :
    l.head? ≠ some ' ' := ((isNormalizedL_iff.mp h).2.2).1

theorem getLast?_ne_space_of_normalized {l : List Char} (h : isNormalizedL l = true) :
    l.getLast? ≠ some ' ' := ((isNormalizedL_iff.mp h).2.2).2

/-- Two nonempty normalized lists joined by one space remain normalized. -/
theorem isNormalizedL_append_space {A B : List Char} (hA : isNormalizedL A = true)
    (hB : isNormalizedL B = true) (hAne : A ≠ []) (hBne : B ≠ []) :
    isNormalizedL (A ++ ' ' :: B) = true := by
  rw [isNormalizedL_iff] at hA hB ⊢
  obtain ⟨hAok, hAdbl, hAh, hAl⟩ := hA
  obtain ⟨hBok, hBdbl, hBh, hBl⟩ := hB
  refine ⟨?_, ?_, ?_, ?_⟩
  · simp only [List.all_append, List.all_cons, Bool.and_eq_true]
    exact ⟨hAok, rfl, hBok⟩
  · refine noDbl_append hAdbl (noDbl_cons hBdbl (fun _ => hBh)) (fun hl => absurd hl hAl)
  · rw [List.head?_append_of_ne_nil _ hAne]
    exact hAh
  · rw [List.getLast?_append_of_ne_nil _ (by simp)]
    rw [getLast?_cons_of_ne_nil hBne]
    exact hBl

/-- Two nonempty normalized lists joined by a comma and a space remain
normalized. -/
theorem isNormalizedL_append_comma {A B : List Char} (hA : isNormalizedL A = true)
    (hB : isNormalizedL B = true) (hAne : A ≠ []) (hBne : B ≠ []) :
    isNormalizedL (A ++ ',' :: ' ' :: B) = true := by
  rw [isNormalizedL_iff] at hA hB ⊢
  obtain ⟨hAok, hAdbl, hAh, hAl⟩ := hA
  obtain ⟨hBok, hBdbl, hBh, hBl⟩ := hB
  refine ⟨?_, ?_, ?_, ?_⟩
  · simp only [List.all_append, List.all_cons, Bool.and_eq_true]
    exact ⟨hAok, rfl, rfl, hBok⟩
  · refine noDbl_append hAdbl ?_ (fun hl => absurd hl hAl)
    refine noDbl_cons (noDbl_cons hBdbl (fun _ => hBh)) (fun hc => absurd hc (by decide))
  · rw [List.head?_append_of_ne_nil _ hAne]
    exact hAh
  · rw [List.getLast?_append_of_ne_nil _ (by simp)]
    rw [getLast?_cons_of_ne_nil (by simp)]
    rw [getLast?_cons_of_ne_nil hBne]
    exact hBl

/-- A list with no whitespace at all is normalized. -/
theorem isNormalizedL_of_no_space {l : List Char}
    (h : ∀ c ∈ l, isPySpace c = false) : isNormalizedL l = true := by
  rw [isNormalizedL_iff]
  refine ⟨?_, ?_, ?_, ?_⟩
  · simp only [List.all_eq_true]
    exact fun c hc => okChar_of_not_space (h c hc)
  · induction l with
    | nil => rfl
    | cons a t ih =>
      refine noDbl_cons (ih (fun c hc => h c (by simp [hc]))) ?_
      intro hsp
      exact absurd hsp (ne_space_of_not_isPySpace (h a (by simp)))
  · intro hc
    have : ' ' ∈ l := List.mem_of_mem_head? (by simp [hc])
    exact absurd rfl (ne_space_of_not_isPySpace (h ' ' this)).symm
  · intro hc
    have : ' ' ∈ l := by
      obtain ⟨hne, he⟩ := List.mem_getLast?_eq_getLast (l := l) (x := ' ') (by simp [hc])
      rw [he]
      exact List.getLast_mem hne
    exact absurd rfl (ne_space_of_not_isPySpace (h ' ' this)).symm

/-! ### String-level bridges -/

theorem isNormalized_mk (l : List Char) : isNormalized (String.mk l) = isNormalizedL l :=
  rfl

theorem string_mk_data (s : String) : String.mk s.data = s := rfl

theorem ne_empty_of_data_ne_nil {s : String} (h : s.data ≠ []) : s ≠ "" := by
  intro he
  subst he
  exact h rfl

/-! ### Tokens produced by `str.split()` -/

theorem pyWordsAux_tokens : ∀ (l acc : List Char), (∀ c ∈ acc, isPySpace c = false) →
    ∀ t ∈ pyWordsAux l acc, t ≠ [] ∧ ∀ c ∈ t, isPySpace c = false := by
  intro l
  induction l with
  | nil =>
    intro acc hacc t ht
    unfold pyWordsAux at ht
    by_cases he : acc.isEmpty = true
    · rw [if_pos he] at ht
      cases ht
    · rw [if_neg he] at ht
      simp only [List.mem_singleton] at ht
      subst ht
      constructor
      · simp only [ne_eq, List.reverse_eq_nil_iff]
        simpa [List.isEmpty_iff] using he
      · intro c hc
        exact hacc c (List.mem_reverse.mp hc)
  | cons c rest ih =>
    intro acc hacc t ht
    unfold pyWordsAux at ht
    by_cases hc : isPySpace c = true
    · rw [if_pos hc] at ht
      by_cases he : acc.isEmpty = true
      · rw [if_pos he] at ht
        exact ih [] (by simp) t ht
      · rw [if_neg he] at ht
        rcases List.mem_cons.mp ht with rfl | hmem
        · constructor
          · simp only [ne_eq, List.reverse_eq_nil_iff]
            simpa [List.isEmpty_iff] using he
          · intro d hd
            exact hacc d (List.mem_reverse.mp hd)
        · exact ih [] (by simp) t hmem
    · rw [if_neg hc] at ht
      refine ih (c :: acc) ?_ t ht
      intro d hd
      rcases List.mem_cons.mp hd with rfl | hmem
      · simpa using hc
      · exact hacc d hmem

/-- Every word of `str.split()` is nonempty and whitespace-free. -/
theorem pyWords_tokens {s t : String} (ht : t ∈ pyWords s) :
    t ≠ "" ∧ ∀ c ∈ t.data, isPySpace c = false := by
  unfold pyWords at ht
  obtain ⟨tl, htl, rfl⟩ := List.mem_map.mp ht
  obtain ⟨hne, hns⟩ := pyWordsAux_tokens s.data [] (by simp) tl htl
  exact ⟨ne_empty_of_data_ne_nil hne, hns⟩

theorem isNormalized_of_token {t : String} (ht : t ∈ pyWords s) :
    isNormalized t = true :=
  isNormalizedL_of_no_space (pyWords_tokens ht).2

/-! ### Joining author names -/

theorem pyJoin_cons_cons (sep s r : String) (rest : List String) :
    pyJoin sep (s :: r :: rest) = s ++ sep ++ pyJoin sep (r :: rest) := rfl

/-- Joining nonempty normalized strings with a comma-space separator yields a
nonempty normalized string. -/
theorem pyJoin_comma_normalized : ∀ (names : List String),
    (∀ s ∈ names, isNormalized s = true ∧ s ≠ "") →
    isNormalized (pyJoin ", " names) = true ∧ (names ≠ [] → pyJoin ", " names ≠ "") := by
  intro names
  induction names with
  | nil => intro _; exact ⟨isNormalized_empty, fun h => absurd rfl h⟩
  | cons s rest ih =>
    intro h
    cases rest with
    | nil =>
      obtain ⟨hs, hsne⟩ := h s (by simp)
      exact ⟨hs, fun _ => hsne⟩
    | cons r rest2 =>
      obtain ⟨hs, hsne⟩ := h s (by simp)
      obtain ⟨hJ, hJne'⟩ := ih (fun x hx => h x (by simp [hx]))
      have hJne : pyJoin ", " (r :: rest2) ≠ "" := hJne' (by simp)
      rw [pyJoin_cons_cons]
      constructor
      · show isNormalizedL (s ++ ", " ++ pyJoin ", " (r :: rest2)).data = true
        have hdata : (s ++ ", " ++ pyJoin ", " (r :: rest2)).data =
            s.data ++ ',' :: ' ' :: (pyJoin ", " (r :: rest2)).data := by
          simp [String.data_append]
        rw [hdata]
        exact isNormalizedL_append_comma hs hJ (data_ne_nil_of_ne_empty hsne)
          (data_ne_nil_of_ne_empty hJne)
      · intro _
        refine ne_empty_of_data_ne_nil ?_
        have hdata : (s ++ ", " ++ pyJoin ", " (r :: rest2)).data =
            s.data ++ ',' :: ' ' :: (pyJoin ", " (r :: rest2)).data := by
          simp [String.data_append]
        rw [hdata]
        simp [data_ne_nil_of_ne_empty hsne]

/-- One author name, built from normalized given and family names with the
family name nonempty, is nonempty and normalized. -/
theorem authorName_normalized {fore last : String} (hf : isNormalized fore = true)
    (hl : isNormalized last = true) (hlne : last ≠ "") :
    isNormalized (pyStrip (fore ++ " " ++ last)) = true ∧
      pyStrip (fore ++ " " ++ last) ≠ "" := by
  by_cases hfe : fore = ""
  · subst hfe
    have hdata : ("" ++ " " ++ last).data = ' ' :: last.data := by
      simp [String.data_append]
    unfold pyStrip
    rw [hdata, pyStripL_cons_space (c := ' ') rfl, pyStripL_of_normalized hl,
      string_mk_data]
    exact ⟨hl, hlne⟩
  · have hdata : (fore ++ " " ++ last).data = fore.data ++ ' ' :: last.data := by
      simp [String.data_append]
    have hnorm : isNormalizedL (fore ++ " " ++ last).data = true := by
      rw [hdata]
      exact isNormalizedL_append_space hf hl (data_ne_nil_of_ne_empty hfe)
        (data_ne_nil_of_ne_empty hlne)
    unfold pyStrip
    rw [pyStripL_of_normalized hnorm, string_mk_data]
    refine ⟨hnorm, ne_empty_of_data_ne_nil ?_⟩
    rw [hdata]
    simp

/-- Every entry of `authorNames` is nonempty and normalized. -/
theorem authorNames_normalized {el : XmlElement} {s : String}
    (hs : s ∈ authorNames el) : isNormalized s = true ∧ s ≠ "" := by
  unfold authorNames at hs
  obtain ⟨a, -, ha⟩ := List.mem_filterMap.mp hs
  by_cases hcond : get_text a [Step.child "LastName"] ≠ ""
  · rw [if_pos hcond] at ha
    simp only [Option.some.injEq] at ha
    subst ha
    exact authorName_normalized (get_text_normalized a _) (get_text_normalized a _) hcond
  · rw [if_neg hcond] at ha
    cases ha

/-- The word-to-display step is normalized, for whitespace-free nonempty
words. -/
theorem firstAuthorFromParts_normalized (parts : List String)
    (h : ∀ t ∈ parts, t ≠ "" ∧ ∀ c ∈ t.data, isPySpace c = false) :
    isNormalized (firstAuthorFromParts parts) = true := by
  cases parts with
  | nil => decide
  | cons p0 ps =>
    cases ps with
    | nil =>
      show isNormalized p0 = true
      exact isNormalizedL_of_no_space (h p0 (by simp)).2
    | cons p1 ps2 =>
      cases hp0 : p0.data with
      | nil =>
        show isNormalized (match p0.data with
          | c :: _ => (p0 :: p1 :: ps2).getLast (by simp) ++ ", " ++ String.mk [c] ++ "."
          | [] => "NO_AUTHOR") = true
        rw [hp0]
        show isNormalized "NO_AUTHOR" = true
        decide
      | cons c cs =>
        obtain ⟨hLne, hLns⟩ := h ((p0 :: p1 :: ps2).getLast (by simp))
          (List.getLast_mem _)
        have hcns : isPySpace c = false := by
          refine (h p0 (by simp)).2 c ?_
          rw [hp0]
          simp
        show isNormalized (match p0.data with
          | c :: _ => (p0 :: p1 :: ps2).getLast (by simp) ++ ", " ++ String.mk [c] ++ "."
          | [] => "NO_AUTHOR") = true
        rw [hp0]
        set L := (p0 :: p1 :: ps2).getLast (by simp) with hL
        show isNormalizedL (L ++ ", " ++ String.mk [c] ++ ".").data = true
        have hdata : (L ++ ", " ++ String.mk [c] ++ ".").data =
            L.data ++ ',' :: ' ' :: [c, '.'] := by
          simp [String.data_append]
        rw [hdata]
        refine isNormalizedL_append_comma ?_ ?_ (data_ne_nil_of_ne_empty hLne) (by simp)
        · exact isNormalizedL_of_no_space hLns
        · refine isNormalizedL_of_no_space ?_
          intro d hd
          rcases List.mem_cons.mp hd with rfl | hd2
          · exact hcns
          · simp only [List.mem_singleton] at hd2
            subst hd2
            rfl

/-- The first-author display string is normalized. -/
theorem firstAuthorDisplay_normalized (names : List String)
    (h : ∀ s ∈ names, isNormalized s = true ∧ s ≠ "") :
    isNormalized (firstAuthorDisplay names) = true := by
  cases names with
  | nil => decide
  | cons a0 rest =>
    show isNormalized (firstAuthorFromParts (pyWords a0)) = true
    exact firstAuthorFromParts_normalized (pyWords a0)
      (fun t ht => pyWords_tokens ht)

/-! ## Characterizing successful parses -/

theorem parse_article_xml_some {el : XmlElement} {art : Article}
    (h : parse_article_xml el = some art) : parse_body el = .ok (some art) := by
  unfold parse_article_xml at h
  cases hb : parse_body el with
  | error e => rw [hb] at h; cases h
  | ok r =>
    rw [hb] at h
    change r = some art at h
    exact congrArg Except.ok h

theorem parse_body_ok_some {el : XmlElement} {art : Article}
    (h : parse_body el = .ok (some art)) :
    get_text el pmidPath ≠ "" ∧
    ∃ pd, ET_find el pubdatePath = some pd ∧
      art.pmid = get_text el pmidPath ∧
      art.title = pyOr (get_text el titlePath) "NO_TITLE" ∧
      art.first_author = firstAuthorDisplay (authorNames el) ∧
      art.authors = pyOr (pyJoin ", " (authorNames el)) "NO_AUTHORS" ∧
      art.year = pyOr (pyOr (get_text pd [Step.child "Year"])
                  (get_text el artDateYearPath)) "NO_YEAR" ∧
      art.journal = some (pyOr (get_text el journalPath) "N/A") ∧
      art.abstract = pyOr (abstractJoined el) "NO_ABSTRACT" ∧
      art.pmcid = pmcidValue el ∧
      art.full_text = some "NOT_ATTEMPTED" := by
  obtain ⟨p, t, fa, au, y, j, ab, pc, ft⟩ := art
  simp only [parse_body] at h
  split at h
  · cases h
  · rename_i hpmid
    split at h
    · cases h
    · rename_i y1 heq
      obtain ⟨pd, hpd, rfl⟩ := get_text_checked_ok heq
      refine ⟨hpmid, pd, hpd, ?_⟩
      simp only [Except.ok.injEq, Option.some.injEq, Article.mk.injEq] at h
      obtain ⟨h1, h2, h3, h4, h5, h6, h7, h8, h9⟩ := h
      exact ⟨h1.symm, h2.symm, h3.symm, h4.symm, h5.symm, h6.symm, h7.symm,
        h8.symm, h9.symm⟩

/-! ## Facts about slices, ranges and the chunk loop -/

theorem toNat_mul_nonneg_left {cs : Int} (h : 0 ≤ cs) (j : Nat) :
    (cs * (j : Int)).toNat = cs.toNat * j := by
  obtain ⟨K, rfl⟩ := Int.eq_ofNat_of_zero_le h
  rw [← Nat.cast_mul, Int.toNat_natCast, Int.toNat_natCast]

/-- `l[0:b]` for a nonnegative `b` is a `take`. -/
theorem pySlice_from_zero (l : List α) (b : Int) (hb : 0 ≤ b) :
    pySlice l 0 b = l.take (min b (l.length : Int)).toNat := by
  simp only [pySlice]
  have hn : (0 : Int) ≤ (l.length : Int) := Int.natCast_nonneg _
  rw [if_neg (by omega), if_neg (by omega)]
  have h0 : (min (0 : Int) (l.length : Int)).toNat = 0 := by omega
  rw [h0, List.drop_zero]

theorem pySlice_from_zero_length (l : List α) (b : Int) (hb : 0 ≤ b) :
    ((pySlice l 0 b).length : Int) ≤ b := by
  rw [pySlice_from_zero l b hb, List.length_take]
  omega

/-- `l[a:a+k]` for nonnegative bounds is a `drop` then a `take`. -/
theorem pySlice_drop_take (l : List α) (a k : Int) (ha : 0 ≤ a) (hk : 0 ≤ k) :
    pySlice l a (a + k) = (l.drop a.toNat).take k.toNat := by
  simp only [pySlice]
  have hn : (0 : Int) ≤ (l.length : Int) := Int.natCast_nonneg _
  rw [if_neg (by omega), if_neg (by omega)]
  rw [List.drop_take]
  by_cases hcase : a ≤ (l.length : Int)
  · have hmin : (min a (l.length : Int)).toNat = a.toNat := by omega
    rw [hmin]
    refine List.take_eq_take.mpr ?_
    rw [List.length_drop]
    omega
  · have h1 : (min a (l.length : Int)).toNat = l.length := by omega
    have h2 : (min (a + k) (l.length : Int)).toNat = l.length := by omega
    rw [h1, h2, Nat.sub_self]
    rw [List.drop_of_length_le (show l.length ≤ a.toNat by omega)]
    simp

theorem pyRangeList_zero_pos (n k : Int) (hk : 0 < k) :
    pyRangeList 0 n k =
      (List.range (((n + k - 1) / k).toNat)).map (fun j : Nat => k * (j : Int)) := by
  unfold pyRangeList pyRangeLen
  rw [if_pos hk]
  simp

theorem pyRangeList_zero_neg (n k : Int) (hk : k < 0) (hn : 0 ≤ n) :
    pyRangeList 0 n k = [] := by
  unfold pyRangeList pyRangeLen
  rw [if_neg (by omega)]
  have hnum : 0 - n + -k - 1 < -k := by omega
  have hcount : ((0 - n + -k - 1) / (-k)).toNat = 0 := by
    by_cases hpos : 0 ≤ 0 - n + -k - 1
    · rw [Int.ediv_eq_zero_of_lt hpos hnum]
      rfl
    · have : (0 - n + -k - 1) / (-k) < 0 := Int.ediv_neg' (by omega) (by omega)
      omega
  rw [hcount]
  rfl

theorem pyRangeLen_zero_zero (k : Int) (hk : k ≠ 0) : pyRangeLen 0 0 k = 0 := by
  unfold pyRangeLen
  by_cases hpos : 0 < k
  · rw [if_pos hpos]
    have : (0 - 0 + k - 1) / k = 0 := Int.ediv_eq_zero_of_lt (by omega) (by omega)
    rw [this]
    rfl
  · rw [if_neg hpos]
    have : (0 - 0 + -k - 1) / (-k) = 0 := Int.ediv_eq_zero_of_lt (by omega) (by omega)
    rw [this]
    rfl

/-- The imperative `articles_data` accumulation is a flatten of the per-index
results, in index order. -/
theorem foldl_append_eq_flatten {α β : Type} (g : α → List β) :
    ∀ (l : List α) (init : List β),
      l.foldl (fun acc x => acc ++ g x) init = init ++ (l.map g).flatten := by
  intro l
  induction l with
  | nil => intro init; simp
  | cons x xs ih =>
    intro init
    simp only [List.foldl_cons, List.map_cons, List.flatten_cons]
    rw [ih (init ++ g x)]
    simp [List.append_assoc]

/-- Processing consecutive `take k` chunks of a list, where each chunk yields
at most as many records as identifiers, yields at most `ids.length` records —
for any number of chunk indices. -/
theorem range_chunks_length_le (f : List String → List Article)
    (hf : ∀ c, (f c).length ≤ c.length) :
    ∀ (m : Nat) (ids : List String) (k : Nat),
      (((List.range m).map fun j => f ((ids.drop (k * j)).take k)).flatten).length
        ≤ ids.length := by
  intro m
  induction m with
  | zero => intro ids k; simp
  | succ m ih =>
    intro ids k
    rw [List.range_succ_eq_map]
    simp only [List.map_cons, List.map_map, List.flatten_cons, List.length_append]
    have hhead : (f ((ids.drop (k * 0)).take k)).length ≤ min k ids.length := by
      have h1 := hf ((ids.drop (k * 0)).take k)
      have h2 : ((ids.drop (k * 0)).take k).length = min k ids.length := by
        simp [List.length_take]
      omega
    have hfun : ((fun j => f ((ids.drop (k * j)).take k)) ∘ Nat.succ) =
        fun j => f (((ids.drop k).drop (k * j)).take k) := by
      funext j
      simp only [Function.comp_apply]
      have hidx : k * Nat.succ j = k + k * j := by
        rw [Nat.mul_succ]
        omega
      rw [hidx, List.drop_drop]
    rw [hfun]
    have htail := ih (ids.drop k) k
    rw [List.length_drop] at htail
    omega

/-! ## Claims -/

/-- C1: the scraper is claimed never to terminate with an unhandled exception,
for any transport error including one whose message is empty. The code slips:
in the except branch it indexes `splitlines()` at 0, and for an empty error
message `splitlines()` is empty, so `IndexError` is raised and nothing catches
it. This theorem evaluates the scraper at that failing input. -/
theorem scrape_empty_message_raises :
    scrape_full_text "PMC123" (ScrapeResp.netErr "") = Except.error PyExn.indexError :=
  rfl

/-- C4: `parse_article_xml` never raises — every exception of the parse body
is caught per record and turned into no-record, and a normal result passes
through unchanged. -/
theorem parse_never_raises (el : XmlElement) :
    (∀ e, parse_body el = .error e → parse_article_xml el = none) ∧
    (∀ r, parse_body el = .ok r → parse_article_xml el = r) := by
  constructor
  · intro e h
    unfold parse_article_xml
    rw [h]
  · intro r h
    unfold parse_article_xml
    rw [h]

/-- C4 witness: a record whose parse body does raise (missing `PubDate`)
is turned into no-record. -/
theorem parse_never_raises_witness :
    parse_body elC4 = Except.error PyExn.attributeError ∧
    parse_article_xml elC4 = none :=
  ⟨rfl, (parse_never_raises elC4).1 PyExn.attributeError rfl⟩

/-- C5: an element whose PMID is absent or empty is rejected — the parser
returns no record, regardless of the other fields. -/
theorem parse_missing_pmid_rejected (el : XmlElement)
    (h : get_text el pmidPath = "") : parse_article_xml el = none := by
  unfold parse_article_xml
  simp only [parse_body]
  rw [if_pos h]

/-- C5 witness: an element with a title but no PMID parses to no record. -/
theorem parse_missing_pmid_rejected_witness :
    get_text elC5 pmidPath = "" ∧ parse_article_xml elC5 = none :=
  ⟨rfl, parse_missing_pmid_rejected elC5 rfl⟩

/-- C7: the id search returns identifiers with no duplicates even when the
upstream response repeats them, and on a transport failure it returns the
empty set — indistinguishable from a search with no results. -/
theorem search_pmids_set_semantics (resp : Except String (List String)) :
    (search_pmids resp).Nodup ∧
    (∀ e, resp = .error e → search_pmids resp = []) ∧
    (∀ e, search_pmids (.error e) = search_pmids (.ok [])) := by
  refine ⟨?_, ?_, ?_⟩
  · cases resp with
    | ok pmids => exact List.nodup_dedup pmids
    | error e => exact List.nodup_nil
  · intro e h
    subst h
    rfl
  · intro e
    rfl

/-- C7 witness: a duplicated upstream id list is deduplicated, and a failed
search yields the empty collection. -/
theorem search_pmids_set_semantics_witness :
    (search_pmids (.ok ["1", "1", "2"])).Nodup ∧
    search_pmids (Except.error "timeout") = [] :=
  ⟨(search_pmids_set_semantics (.ok ["1", "1", "2"])).1,
   (search_pmids_set_semantics (Except.error "timeout")).2.1 "timeout" rfl⟩

/-- C3 counterexample: an article whose `full_text` is the empty-full-text
sentinel contributes the sentinel string as its text content, not its
abstract, because the code only falls back for falsy values or ones
containing `NOT_ATTEMPTED`. -/
theorem analyze_text_choice_cex :
    text_content artC3cex = "FULL_TEXT_EMPTY" ∧
    text_content artC3cex ≠ artC3cex.abstract := by
  constructor
  · rfl
  · decide

/-- C3 (amended): the analyzer includes the article full text exactly when it
is non-null, nonempty, and does not contain the substring `NOT_ATTEMPTED`;
otherwise it includes the abstract. In particular the failure and empty
sentinels are themselves included as text content, not replaced by the
abstract. -/
theorem analyze_text_choice (a : Article) :
    (∀ ft, a.full_text = some ft → ft ≠ "" → pyIn "NOT_ATTEMPTED" ft = false →
      text_content a = ft) ∧
    ((a.full_text = none ∨ a.full_text = some "" ∨
      (∃ ft, a.full_text = some ft ∧ pyIn "NOT_ATTEMPTED" ft = true)) →
      text_content a = a.abstract) := by
  constructor
  · intro ft hft hne hni
    unfold text_content
    rw [hft]
    show (if ft ≠ "" ∧ pyIn "NOT_ATTEMPTED" ft = false then ft else a.abstract) = ft
    rw [if_pos ⟨hne, hni⟩]
  · intro h
    unfold text_content
    rcases h with h | h | ⟨ft, hft, hin⟩
    · rw [h]
    · rw [h]
      show (if "" ≠ "" ∧ pyIn "NOT_ATTEMPTED" "" = false then "" else a.abstract) =
        a.abstract
      rw [if_neg (by simp)]
    · rw [hft]
      show (if ft ≠ "" ∧ pyIn "NOT_ATTEMPTED" ft = false then ft else a.abstract) =
        a.abstract
      rw [if_neg (by simp [hin])]

/-- C3 witness: a real full text is used; a null full text falls back to the
abstract. -/
theorem analyze_text_choice_witness :
    text_content artC3full = "Body text." ∧ text_content artC3none = artC3none.abstract :=
  ⟨(analyze_text_choice artC3full).1 "Body text." rfl (by decide) rfl,
   (analyze_text_choice artC3none).2 (Or.inl rfl)⟩

set_option maxHeartbeats 2000000 in
/-- C2 counterexample: a record the parser accepts whose abstract keeps its
interior double space — the abstract comprehension joins the raw fragment
texts and only strips the ends, it never collapses whitespace runs. -/
theorem parse_whitespace_claim_cex :
    parse_article_xml elC2cex = some artC2cex ∧
    isNormalized artC2cex.abstract = false :=
  ⟨by decide, by decide⟩

/-- C2 (amended): for every record the parser accepts, the title, authors,
first-author display, journal and year fields are whitespace-normalized
(runs collapsed to one space, ends trimmed); the abstract is only trimmed of
leading and trailing whitespace (interior runs are preserved), and the
secondary identifier is copied verbatim with no cleanup at all. -/
theorem parse_fields_normalized (el : XmlElement) (art : Article)
    (h : parse_article_xml el = some art) :
    isNormalized art.title = true ∧
    isNormalized art.authors = true ∧
    isNormalized art.first_author = true ∧
    (∀ j, art.journal = some j → isNormalized j = true) ∧
    isNormalized art.year = true ∧
    pyStrip art.abstract = art.abstract := by
  obtain ⟨hpmid, pd, hpd, hp, ht, hfa, hau, hy, hj, hab, hpc, hft⟩ :=
    parse_body_ok_some (parse_article_xml_some h)
  refine ⟨?_, ?_, ?_, ?_, ?_, ?_⟩
  · rw [ht]
    exact pyOr_normalized (get_text_normalized el _) (by decide)
  · rw [hau]
    exact pyOr_normalized
      (pyJoin_comma_normalized _ (fun s hs => authorNames_normalized hs)).1
      (by decide)
  · rw [hfa]
    exact firstAuthorDisplay_normalized _ (fun s hs => authorNames_normalized hs)
  · intro jn hjn
    rw [hj] at hjn
    simp only [Option.some.injEq] at hjn
    subst hjn
    exact pyOr_normalized (get_text_normalized el _) (by decide)
  · rw [hy]
    exact pyOr_normalized
      (pyOr_normalized (get_text_normalized pd _) (get_text_normalized el _))
      (by decide)
  · rw [hab]
    unfold pyOr
    split
    · decide
    · unfold abstractJoined
      exact pyStrip_idem _

set_option maxHeartbeats 2000000 in
/-- C2 witness: a messy record parses to fully cleaned fields. -/
theorem parse_fields_normalized_witness :
    parse_article_xml elC2w = some artC2w ∧
    (isNormalized artC2w.title = true ∧
     isNormalized artC2w.authors = true ∧
     isNormalized artC2w.first_author = true ∧
     (∀ j, artC2w.journal = some j → isNormalized j = true) ∧
     isNormalized artC2w.year = true ∧
     pyStrip artC2w.abstract = artC2w.abstract) :=
  ⟨by decide, parse_fields_normalized elC2w artC2w (by decide)⟩



/-- C6 counterexample: with `limit = -1` (smaller than the two identifiers
found) the Python slice `list(...)[:-1]` keeps one identifier, so one article
is returned — more than `limit`. -/
theorem search_limit_cex :
    search_endpoint reqNegLimit (.ok ["10", "11"]) (fun _ => ChunkFetch.parsed rootC6)
        (fun _ => "") = .ok [artC6] ∧
    ¬ ((([artC6] : List Article).length : Int) ≤ reqNegLimit.limit) := by
  constructor
  · decide
  · decide

/-- C6 (amended): for every request with a nonnegative `limit`, the slice
caps the processed identifiers at `limit`; hence, provided every fetched
chunk parses to at most as many records as it has identifiers, the final
article list has size at most `limit`. -/
theorem search_limit_bounds (req : SearchRequest) (resp : Except String (List String))
    (fetch : List String → ChunkFetch) (scrape : String → String) (l : List Article)
    (hlim : 0 ≤ req.limit)
    (hf : ∀ c, (processChunk req fetch scrape c).length ≤ c.length)
    (hok : search_endpoint req resp fetch scrape = .ok l) :
    (l.length : Int) ≤ req.limit := by
  have hplen : ((pmid_list_of req resp).length : Int) ≤ req.limit := by
    unfold pmid_list_of
    exact pySlice_from_zero_length _ _ hlim
  simp only [search_endpoint] at hok
  split at hok
  · simp only [Except.ok.injEq] at hok
    subst hok
    simpa using hlim
  · split at hok
    · cases hok
    · rename_i indices heq
      simp only [Except.ok.injEq] at hok
      subst hok
      unfold pyRange at heq
      split at heq
      · cases heq
      · rename_i hcs0
        simp only [Except.ok.injEq] at heq
        subst heq
        rw [foldl_append_eq_flatten, List.nil_append]
        rcases lt_trichotomy req.chunk_size 0 with hneg | hz | hpos
        · rw [pyRangeList_zero_neg _ _ hneg (Int.natCast_nonneg _)]
          simpa using hlim
        · exact absurd hz hcs0
        · rw [pyRangeList_zero_pos _ _ hpos, List.map_map]
          have hfun : ((fun i => processChunk req fetch scrape
                (pySlice (pmid_list_of req resp) i (i + req.chunk_size)))
              ∘ fun j : Nat => req.chunk_size * (j : Int)) =
              fun j : Nat => processChunk req fetch scrape
                (((pmid_list_of req resp).drop (req.chunk_size.toNat * j)).take
                  req.chunk_size.toNat) := by
            funext j
            simp only [Function.comp_apply]
            rw [pySlice_drop_take _ _ _ (by positivity) (by omega)]
            rw [toNat_mul_nonneg_left (by omega)]
          rw [hfun]
          have hchunks := range_chunks_length_le (processChunk req fetch scrape) hf
            (((pmid_list_of req resp).length + req.chunk_size - 1)
              / req.chunk_size).toNat (pmid_list_of req resp) req.chunk_size.toNat
          omega

/-- C6 witness: with a nonnegative limit and chunks that never inflate, the
returned list respects the limit. -/
theorem search_limit_bounds_witness :
    (0 : Int) ≤ reqC6w.limit ∧
    search_endpoint reqC6w (.ok ["20", "21"]) (fun _ => ChunkFetch.parseError)
        (fun _ => "") = .ok [] ∧
    ((([] : List Article).length : Int) ≤ reqC6w.limit) := by
  refine ⟨by decide, by decide, ?_⟩
  exact search_limit_bounds reqC6w (.ok ["20", "21"]) (fun _ => ChunkFetch.parseError)
    (fun _ => "") [] (by decide)
    (fun c => by simp [processChunk]) (by decide)

/-- C8: when the loop runs (nonzero chunk size), the final article list is
exactly the concatenation, in chunk order, of the per-chunk results — and a
chunk whose XML fails to parse contributes the empty list, so it is skipped
without aborting the loop and the records of every other chunk still appear,
in order. -/
theorem search_chunk_failure_isolated (req : SearchRequest)
    (resp : Except String (List String)) (fetch : List String → ChunkFetch)
    (scrape : String → String) (l : List Article)
    (hcs : req.chunk_size ≠ 0)
    (hok : search_endpoint req resp fetch scrape = .ok l) :
    l = ((search_chunks req resp).map (processChunk req fetch scrape)).flatten ∧
    ∀ c, fetch c = ChunkFetch.parseError → processChunk req fetch scrape c = [] := by
  constructor
  · simp only [search_endpoint] at hok
    split at hok
    · rename_i hnil
      simp only [Except.ok.injEq] at hok
      subst hok
      simp only [search_chunks, hnil, List.length_nil, Nat.cast_zero]
      unfold pyRangeList
      rw [pyRangeLen_zero_zero _ hcs]
      rfl
    · split at hok
      · cases hok
      · rename_i indices heq
        simp only [Except.ok.injEq] at hok
        subst hok
        unfold pyRange at heq
        rw [if_neg hcs] at heq
        simp only [Except.ok.injEq] at heq
        subst heq
        rw [foldl_append_eq_flatten, List.nil_append]
        unfold search_chunks
        rw [List.map_map]
        rfl
  · intro c h
    unfold processChunk
    rw [h]

/-- C8 witness: the first chunk fails to parse, the second parses to one
record; the final list is exactly the second chunk record, in order. -/
theorem search_chunk_failure_isolated_witness :
    search_endpoint reqC8 (.ok ["30", "31"]) fetchC8 (fun _ => "") = .ok [artC8] ∧
    ([artC8] =
      ((search_chunks reqC8 (.ok ["30", "31"])).map
        (processChunk reqC8 fetchC8 (fun _ => ""))).flatten ∧
      ∀ c, fetchC8 c = ChunkFetch.parseError →
        processChunk reqC8 fetchC8 (fun _ => "") c = []) := by
  refine ⟨by decide, ?_⟩
  exact search_chunk_failure_isolated reqC8 (.ok ["30", "31"]) fetchC8 (fun _ => "")
    [artC8] (by decide) (by decide)

/-- C10: the batch-size invariant is not enforced. With `chunk_size = 0` and
a nonempty truncated identifier list, `range(0, n, 0)` raises `ValueError`
and the endpoint fails; with `chunk_size < 0` the range is empty, so the
endpoint returns the empty list without any chunk ever being fetched (the
result does not depend on the fetch function at all). -/
theorem search_chunk_size_misuse (req : SearchRequest)
    (resp : Except String (List String)) (fetch : List String → ChunkFetch)
    (scrape : String → String) :
    (req.chunk_size = 0 → pmid_list_of req resp ≠ [] →
      search_endpoint req resp fetch scrape = .error PyExn.valueError) ∧
    (req.chunk_size < 0 → search_endpoint req resp fetch scrape = .ok []) := by
  constructor
  · intro h0 hne
    simp only [search_endpoint]
    rw [if_neg hne]
    unfold pyRange
    rw [if_pos h0]
  · intro hneg
    simp only [search_endpoint]
    by_cases hnil : pmid_list_of req resp = []
    · rw [if_pos hnil]
    · rw [if_neg hnil]
      unfold pyRange
      rw [if_neg (by omega)]
      rw [pyRangeList_zero_neg _ _ hneg (Int.natCast_nonneg _)]
      rfl

/-- C10 witness: a zero chunk size fails with `ValueError`; a negative one
returns the empty list. -/
theorem search_chunk_size_misuse_witness :
    search_endpoint reqZeroChunk (.ok ["1"]) (fun _ => ChunkFetch.noData) (fun _ => "")
        = .error PyExn.valueError ∧
    search_endpoint reqNegChunk (.ok ["1"]) (fun _ => ChunkFetch.noData) (fun _ => "")
        = .ok [] :=
  ⟨(search_chunk_size_misuse reqZeroChunk (.ok ["1"]) (fun _ => ChunkFetch.noData)
      (fun _ => "")).1 rfl (by decide),
   (search_chunk_size_misuse reqNegChunk (.ok ["1"]) (fun _ => ChunkFetch.noData)
      (fun _ => "")).2 (by decide)⟩

theorem pySliceStr_from_zero_length (s : String) (b : Int) (hb : 0 ≤ b) :
    ((pySliceStr s 0 b).length : Int) ≤ b := by
  unfold pySliceStr
  show (((pySlice s.data 0 b).length : Nat) : Int) ≤ b
  exact pySlice_from_zero_length _ _ hb

/-- C9: the analyzer truncates each article block text to at most 3000
characters before concatenation, and the assembled prompt sent upstream has
length at most 30000 characters. -/
theorem analyze_prompt_truncation (articles : List Article) :
    (full_prompt articles).length ≤ 30000 ∧
    ∀ (i : Nat) (a : Article), articles.get? i = some a →
      (article_texts articles).get? i =
        some ("ARTICLE " ++ toString (i + 1) ++ " " ++ citation a ++ ":\n"
          ++ pySliceStr (text_content a) 0 3000 ++ "...\n") ∧
      (pySliceStr (text_content a) 0 3000).length ≤ 3000 := by
  constructor
  · unfold full_prompt
    have h := pySliceStr_from_zero_length
      (prompt_header ++ pyJoin "\n" (article_texts articles)) 30000 (by omega)
    omega
  · intro i a ha
    constructor
    · unfold article_texts
      rw [List.get?_map, List.enum_get?, ha]
      rfl
    · have h := pySliceStr_from_zero_length (text_content a) 3000 (by omega)
      omega

/-- C9 witness: a one-article request produces a block in the truncated form
and a prompt within the overall cap. -/
theorem analyze_prompt_truncation_witness :
    (full_prompt [artC9]).length ≤ 30000 ∧
    (article_texts [artC9]).get? 0 =
      some ("ARTICLE " ++ toString (0 + 1) ++ " " ++ citation artC9 ++ ":\n"
        ++ pySliceStr (text_content artC9) 0 3000 ++ "...\n") :=
  ⟨(analyze_prompt_truncation [artC9]).1,
   ((analyze_prompt_truncation [artC9]).2 0 artC9 rfl).1⟩
